import Mathlib

/-!
# Verification of the markdown → ADF converter

This file embeds the markdown-to-ADF converter (`markdownToAdf`,
`parseInlineMarkdown`, `textToAdf`) as Lean functions over `List Char`,
mirroring the JavaScript source line by line, and proves properties of the
embedding.

Modelling notes:

* Strings are `List Char`; `String.split('\n')` is `splitLines`, which, like
  JavaScript, yields `[[]]` on the empty string and keeps a trailing empty
  line after a final newline char.
* The regexes of the source are compiled by hand into deterministic
  character-list functions.  Each is annotated with the regex it implements,
  and the backtracking behaviour of the JavaScript engine is reproduced
  (e.g. in `headingMatch`, when everything after the hashes is whitespace,
  backtracking of `\s+` can still leave one whitespace character for `(.+)`).
* The `while (remaining.length > 0)` loop of `parseInlineMarkdown` is not
  structurally recursive: the literal-fallback branch can consume zero
  characters (when the remaining text starts with one of `*`, backtick, `[`
  but none of the four patterns matches), in which case the JavaScript loop
  re-scans the same text forever.  The loop is therefore modelled with a
  step function `inlineStep` plus fuel: a productive iteration consumes at
  least one character, so fuel = length of the input suffices, and the model
  returns `none` exactly when an iteration consumes nothing, i.e. exactly
  when the JavaScript loop diverges.  The outer line loop of `markdownToAdf`
  consumes at least one line per iteration and gets the same treatment.
-/

/-- The backtick character (avoiding the literal in code). -/
def backtick : Char := Char.ofNat 96

/-- JavaScript `\s` (also the character class used by `String.prototype.trim`):
space, tab, LF, VT, FF, CR, NBSP (U+00A0), U+1680, U+2000-U+200A, LS, PS,
U+202F, U+205F, U+3000 and U+FEFF, by code point. -/
def jsWs (c : Char) : Bool :=
  decide (c.toNat = 32 ∨ c.toNat = 9 ∨ c.toNat = 10 ∨ c.toNat = 13
    ∨ c.toNat = 11 ∨ c.toNat = 12
    ∨ c.toNat = 0xA0 ∨ c.toNat = 0x1680
    ∨ (0x2000 ≤ c.toNat ∧ c.toNat ≤ 0x200A)
    ∨ c.toNat = 0x2028 ∨ c.toNat = 0x2029 ∨ c.toNat = 0x202F
    ∨ c.toNat = 0x205F ∨ c.toNat = 0x3000 ∨ c.toNat = 0xFEFF)

/-- JavaScript line terminators (the characters `.` does not match):
LF, CR, LS (U+2028), PS (U+2029). -/
def isLineTerm (c : Char) : Bool :=
  decide (c.toNat = 10 ∨ c.toNat = 13 ∨ c.toNat = 0x2028 ∨ c.toNat = 0x2029)


/-- `markdown.split('\n')`: empty string gives one empty line; a trailing
newline gives a trailing empty line. -/
def splitLines : List Char → List (List Char)
  | [] => [[]]
  | c :: cs =>
    if c = '\n' then [] :: splitLines cs
    else
      match splitLines cs with
      | [] => [[c]]
      | l :: ls => (c :: l) :: ls

/-- `String.prototype.trim`: strip `jsWs` from both ends. -/
def jsTrim (l : List Char) : List Char :=
  ((l.dropWhile jsWs).reverse.dropWhile jsWs).reverse

/-- `codeLines.join('\n')`. -/
def joinNl : List (List Char) → List Char
  | [] => []
  | [l] => l
  | l :: ls => l ++ '\n' :: joinNl ls

/-- ADF mark (`{type, attrs?}`); `attrs` only ever holds string values
(`{href}` on links). -/
structure AdfMark where
  type : List Char
  attrs : Option (List (List Char × List Char))
  deriving Repr

/-- Attribute values occurring on nodes: `level` is a number, `language` a
string. -/
inductive AttrVal where
  | num (n : Nat)
  | str (s : List Char)
  deriving Repr

/-- ADF node (`{type, content?, text?, marks?, attrs?}`), with `Option`
distinguishing absent fields from empty ones, exactly as the source builds
its object literals. -/
inductive AdfNode where
  | mk (type : List Char) (content : Option (List AdfNode))
       (text : Option (List Char)) (marks : Option (List AdfMark))
       (attrs : Option (List (List Char × AttrVal)))

/-- The `type` field of a node. -/
def AdfNode.typeOf : AdfNode → List Char
  | .mk t _ _ _ _ => t

/-- The `content` field of a node. -/
def AdfNode.contentOf : AdfNode → Option (List AdfNode)
  | .mk _ c _ _ _ => c

/-- The `marks` field of a node. -/
def AdfNode.marksOf : AdfNode → Option (List AdfMark)
  | .mk _ _ _ m _ => m

/-- The `attrs` field of a node. -/
def AdfNode.attrsOf : AdfNode → Option (List (List Char × AttrVal))
  | .mk _ _ _ _ a => a

/-- ADF document (`{type: 'doc', version: 1, content}`). -/
structure AdfDocument where
  type : List Char
  version : Nat
  content : List AdfNode

/-- `{type: 'strong'}`. -/
def strongMark : AdfMark := ⟨"strong".data, none⟩

/-- `{type: 'em'}`. -/
def emMark : AdfMark := ⟨"em".data, none⟩

/-- `{type: 'code'}`. -/
def codeMark : AdfMark := ⟨"code".data, none⟩

/-- `{type: 'link', attrs: {href}}`. -/
def linkMark (href : List Char) : AdfMark :=
  ⟨"link".data, some [("href".data, href)]⟩

/-- `{type: 'text', text, marks}`. -/
def textNode (t : List Char) (ms : List AdfMark) : AdfNode :=
  .mk "text".data none (some t) (some ms) none

/-- `{type: 'text', text}` with no `marks` field (the literal-fallback and
code-block text shape). -/
def plainText (t : List Char) : AdfNode :=
  .mk "text".data none (some t) none none

/-- `{type: 'paragraph', content}`. -/
def paraNode (c : List AdfNode) : AdfNode :=
  .mk "paragraph".data (some c) none none none

/-- `{type: 'paragraph', content: []}`. -/
def emptyPara : AdfNode := paraNode []

/-- `{type: 'heading', attrs: {level}, content}`. -/
def headingNode (level : Nat) (c : List AdfNode) : AdfNode :=
  .mk "heading".data (some c) none none (some [("level".data, .num level)])

/-- `{type: 'codeBlock', attrs: language ? {language} : {}, content:
[{type: 'text', text}]}`. -/
def codeBlockNode (language : List Char) (text : List Char) : AdfNode :=
  .mk "codeBlock".data (some [plainText text]) none none
    (some (if language = [] then [] else [("language".data, .str language)]))

/-- `{type: 'listItem', content: [{type: 'paragraph', content}]}`. -/
def listItemNode (inl : List AdfNode) : AdfNode :=
  .mk "listItem".data (some [paraNode inl]) none none none

/-- `{type: 'bulletList', content: items}`. -/
def bulletListNode (items : List AdfNode) : AdfNode :=
  .mk "bulletList".data (some items) none none none

/-- `{type: 'orderedList', content: items}`. -/
def orderedListNode (items : List AdfNode) : AdfNode :=
  .mk "orderedList".data (some items) none none none

/-- `⟨'doc', 1, content⟩`. -/
def mkDoc (content : List AdfNode) : AdfDocument :=
  ⟨"doc".data, 1, content⟩

/-- `/^\*\*([^*]+)\*\*/` of the bold branch: returns the capture and the text
after the whole match.  `[^*]+` is greedy and a shorter capture would force
`\*` to match a non-star, so the match is the maximal star-free run followed
by two literal stars. -/
def boldMatch (l : List Char) : Option (List Char × List Char) :=
  match l with
  | '*' :: '*' :: rest =>
    let body := rest.takeWhile fun c => decide (c ≠ '*')
    if body = [] then none
    else
      match rest.dropWhile fun c => decide (c ≠ '*') with
      | '*' :: '*' :: rest2 => some (body, rest2)
      | _ => none
  | _ => none

/-- `/^\*([^*]+)\*/` of the italic branch. -/
def italicMatch (l : List Char) : Option (List Char × List Char) :=
  match l with
  | '*' :: rest =>
    let body := rest.takeWhile fun c => decide (c ≠ '*')
    if body = [] then none
    else
      match rest.dropWhile fun c => decide (c ≠ '*') with
      | '*' :: rest2 => some (body, rest2)
      | _ => none
  | _ => none

/-- The inline-code regex (backtick, one or more non-backtick characters,
backtick), like `boldMatch` but with backticks. -/
def codeMatch (l : List Char) : Option (List Char × List Char) :=
  match l with
  | c :: rest =>
    if c = backtick then
      let body := rest.takeWhile fun ch => decide (ch ≠ backtick)
      if body = [] then none
      else
        match rest.dropWhile fun ch => decide (ch ≠ backtick) with
        | c2 :: rest2 => if c2 = backtick then some (body, rest2) else none
        | [] => none
    else none
  | [] => none

/-- `/^\[([^\]]+)\]\(([^)]+)\)/` of the link branch: returns link text, href
and the text after the match. -/
def linkMatch (l : List Char) : Option (List Char × List Char × List Char) :=
  match l with
  | '[' :: rest =>
    let txt := rest.takeWhile fun c => decide (c ≠ ']')
    if txt = [] then none
    else
      match rest.dropWhile fun c => decide (c ≠ ']') with
      | ']' :: '(' :: rest2 =>
        let url := rest2.takeWhile fun c => decide (c ≠ ')')
        if url = [] then none
        else
          match rest2.dropWhile fun c => decide (c ≠ ')') with
          | ')' :: rest3 => some (txt, url, rest3)
          | _ => none
      | _ => none
  | _ => none

/-- The character class `[\*`[]` searched for by the literal fallback
(`remaining.search`). -/
def isSpecial (c : Char) : Bool :=
  decide (c = '*' ∨ c = backtick ∨ c = '[')

/-- One iteration of the `while (remaining.length > 0)` loop of
`parseInlineMarkdown`: the node pushed and the new value of `remaining`.
In the fallback, `search` finding no special char corresponds to pushing the
whole text and breaking (new remaining `[]`); finding one at index `n`
pushes the first `n` characters and slices them off — for `n = 0` this
consumes nothing, which is how the source loop diverges. -/
def inlineStep (rem : List Char) : AdfNode × List Char :=
  match boldMatch rem with
  | some (b, rest) => (textNode b [strongMark], rest)
  | none =>
  match italicMatch rem with
  | some (b, rest) => (textNode b [emMark], rest)
  | none =>
  match codeMatch rem with
  | some (b, rest) => (textNode b [codeMark], rest)
  | none =>
  match linkMatch rem with
  | some (t, u, rest) => (textNode t [linkMark u], rest)
  | none =>
    match rem.dropWhile fun c => !isSpecial c with
    | [] => (plainText rem, [])
    | post => (plainText (rem.takeWhile fun c => !isSpecial c), post)

/-- The inline loop with fuel; `none` when an iteration consumes nothing
(the source diverges) or fuel runs out (never happens from
`parseInlineMarkdown`, whose fuel is the input length: each productive
iteration consumes at least one character). -/
def parseInlineFuel : Nat → List Char → Option (List AdfNode)
  | _, [] => some []
  | 0, _ :: _ => none
  | fuel + 1, c :: cs =>
    let s := inlineStep (c :: cs)
    if s.2.length < (c :: cs).length then
      (parseInlineFuel fuel s.2).map fun ns => s.1 :: ns
    else none

/-- `parseInlineMarkdown(text)`: `some nodes` when the source loop
terminates with `nodes`, `none` when it diverges. -/
def parseInlineMarkdown (l : List Char) : Option (List AdfNode) :=
  parseInlineFuel l.length l

/-- `/^(#{1,6})\s+(.+)$/`: level (number of hashes) and heading text.
With `k` leading hashes, only the full run can be matched by `#{1,6}` (a
shorter one is followed by `#`, not whitespace), so `k ≤ 6` is required and
the level is `k`.  After the hashes, `\s+` takes the whitespace run; `(.+)$`
then needs a non-empty line-terminator-free remainder.  If the remainder is
empty (all-whitespace tail), `\s+` backtracks one character, so the text is
the last whitespace character, provided there are at least two whitespace
characters and the last is not a line terminator. -/
def headingMatch (l : List Char) : Option (Nat × List Char) :=
  let k := (l.takeWhile fun c => decide (c = '#')).length
  let rest := l.dropWhile fun c => decide (c = '#')
  if k = 0 ∨ 6 < k then none
  else
    let ws := rest.takeWhile jsWs
    let t := rest.dropWhile jsWs
    if ws = [] then none
    else if t = [] then
      match ws.getLast? with
      | some c =>
        if 2 ≤ ws.length ∧ isLineTerm c = false then some (k, [c]) else none
      | none => none
    else if t.all fun c => !isLineTerm c then some (k, t) else none

/-- `line.startsWith('\x60\x60\x60')`. -/
def startsFence (l : List Char) : Bool :=
  decide (l.take 3 = [backtick, backtick, backtick])

/-- `/^[\*\-\+]\s+/`, as used both for the test and for
`replace(/^[\*\-\+]\s+/, '')`: if the line starts with a marker followed by
at least one whitespace character, return the line with the marker and the
(greedy, maximal) whitespace run stripped. -/
def bulletStrip (l : List Char) : Option (List Char) :=
  match l with
  | c :: rest =>
    if c = '*' ∨ c = '-' ∨ c = '+' then
      match rest with
      | w :: _ => if jsWs w then some (rest.dropWhile jsWs) else none
      | [] => none
    else none
  | [] => none

/-- Whether a line matches the bullet-item pattern. -/
def isBullet (l : List Char) : Bool := (bulletStrip l).isSome

/-- `/^\d+\.\s+/`, test and strip: one or more digits (the maximal digit run;
a shorter one is followed by a digit, not `.`), a period, then at least one
whitespace character; strips all of it. -/
def orderedStrip (l : List Char) : Option (List Char) :=
  if (l.takeWhile Char.isDigit) = [] then none
  else
    match l.dropWhile Char.isDigit with
    | '.' :: rest =>
      match rest with
      | w :: _ => if jsWs w then some (rest.dropWhile jsWs) else none
      | [] => none
    | _ => none

/-- Whether a line matches the ordered-item pattern. -/
def isOrdered (l : List Char) : Bool := (orderedStrip l).isSome

/-- The inner `while` of the list branches: parse each line of the run
(already stripped of its marker prefix) and wrap it in a list item; `none`
if any inline parse diverges. -/
def listItems (strip : List Char → Option (List Char)) :
    List (List Char) → Option (List AdfNode)
  | [] => some []
  | l :: ls =>
    (parseInlineMarkdown ((strip l).getD [])).bind fun inl =>
      (listItems strip ls).map fun items => listItemNode inl :: items

/-- The `while (i < lines.length)` loop of `markdownToAdf`, with the cursor
replaced by the list of remaining lines.  Every iteration consumes at least
one line, so fuel = number of lines suffices; `none` propagates divergence
of the inline scanner. -/
def mdBlocksFuel : Nat → List (List Char) → Option (List AdfNode)
  | _, [] => some []
  | 0, _ :: _ => none
  | fuel + 1, line :: rest =>
    if jsTrim line = [] then mdBlocksFuel fuel rest
    else
      match headingMatch line with
      | some kt =>
        (parseInlineMarkdown kt.2).bind fun inl =>
          (mdBlocksFuel fuel rest).map fun bs => headingNode kt.1 inl :: bs
      | none =>
        if startsFence line then
          let body := rest.takeWhile fun l => !startsFence l
          let rest2 := (rest.dropWhile fun l => !startsFence l).drop 1
          (mdBlocksFuel fuel rest2).map fun bs =>
            codeBlockNode (jsTrim (line.drop 3)) (joinNl body) :: bs
        else
          match bulletStrip line with
          | some _ =>
            let run := (line :: rest).takeWhile isBullet
            let rest2 := (line :: rest).dropWhile isBullet
            (listItems bulletStrip run).bind fun items =>
              (mdBlocksFuel fuel rest2).map fun bs =>
                bulletListNode items :: bs
          | none =>
            match orderedStrip line with
            | some _ =>
              let run := (line :: rest).takeWhile isOrdered
              let rest2 := (line :: rest).dropWhile isOrdered
              (listItems orderedStrip run).bind fun items =>
                (mdBlocksFuel fuel rest2).map fun bs =>
                  orderedListNode items :: bs
            | none =>
              (parseInlineMarkdown line).bind fun inl =>
                (mdBlocksFuel fuel rest).map fun bs => paraNode inl :: bs

/-- `markdownToAdf(markdown)`: `some document` when the source terminates,
`none` when it diverges. -/
def markdownToAdf (s : List Char) : Option AdfDocument :=
  let lines := splitLines s
  (mdBlocksFuel lines.length lines).map fun content =>
    { type := "doc".data, version := 1
      content := if content.length = 0 then [emptyPara] else content }

/-- `textToAdf(text)`: one paragraph per line whose trim is non-empty, or a
single empty paragraph. -/
def textToAdf (s : List Char) : AdfDocument :=
  let paragraphs := (splitLines s).filter fun l => decide (jsTrim l ≠ [])
  if paragraphs = [] then mkDoc [emptyPara]
  else mkDoc (paragraphs.map fun p => paraNode [plainText p])

/-! ## Helper lemmas -/

theorem mem_dropWhile_of_mem {α} {p : α → Bool} {c : α} (hc : p c = false) :
    ∀ {l : List α}, c ∈ l → c ∈ l.dropWhile p := by
  intro l hm
  induction l with
  | nil => cases hm
  | cons a t ih =>
    rw [List.dropWhile_cons]
    split
    · rename_i hpa
      rcases List.mem_cons.mp hm with rfl | hmt
      · rw [hc] at hpa; cases hpa
      · exact ih hmt
    · exact hm

theorem jsTrim_ne_nil_of_mem {c : Char} {l : List Char} (hm : c ∈ l)
    (hw : jsWs c = false) : jsTrim l ≠ [] := by
  intro h
  unfold jsTrim at h
  have h1 : c ∈ l.dropWhile jsWs := mem_dropWhile_of_mem hw hm
  have h2 : c ∈ (l.dropWhile jsWs).reverse := List.mem_reverse.mpr h1
  have h3 : c ∈ (l.dropWhile jsWs).reverse.dropWhile jsWs :=
    mem_dropWhile_of_mem hw h2
  rw [List.reverse_eq_nil_iff.mp h] at h3
  cases h3

theorem jsTrim_nil_of_all_ws {l : List Char} (h : ∀ c ∈ l, jsWs c = true) :
    jsTrim l = [] := by
  unfold jsTrim
  rw [List.dropWhile_eq_nil_iff.mpr h]
  rfl

theorem headingMatch_none_of_head {c : Char} {l : List Char} (hc : c ≠ '#') :
    headingMatch (c :: l) = none := by
  unfold headingMatch
  rw [List.takeWhile_cons]
  simp [hc]

theorem headingMatch_none_of_seven {l : List Char}
    (h : 7 ≤ (l.takeWhile fun c => decide (c = '#')).length) :
    headingMatch l = none := by
  unfold headingMatch
  have : 6 < (l.takeWhile fun c => decide (c = '#')).length := by omega
  simp [this]

theorem headingMatch_bounds {l : List Char} {k : Nat} {t : List Char}
    (h : headingMatch l = some (k, t)) :
    k = (l.takeWhile fun c => decide (c = '#')).length ∧ 1 ≤ k ∧ k ≤ 6 := by
  simp only [headingMatch] at h
  split at h
  · cases h
  · rename_i hguard
    push_neg at hguard
    obtain ⟨hg1, hg2⟩ := hguard
    split at h
    · cases h
    · split at h
      · split at h
        · split at h
          · injection h with h2
            injection h2 with h3 h4
            subst h3
            exact ⟨rfl, by omega, by omega⟩
          · cases h
        · cases h
      · split at h
        · injection h with h2
          injection h2 with h3 h4
          subst h3
          exact ⟨rfl, by omega, by omega⟩
        · cases h

theorem startsFence_false_of_head {c : Char} {l : List Char}
    (hc : c ≠ backtick) : startsFence (c :: l) = false := by
  unfold startsFence
  simp [List.take, hc]

theorem startsFence_shape {l : List Char} (h : startsFence l = true) :
    ∃ r, l = backtick :: backtick :: backtick :: r := by
  unfold startsFence at h
  rw [decide_eq_true_iff] at h
  match l, h with
  | a :: b :: c :: r, h =>
    simp [List.take] at h
    exact ⟨r, by rw [h.1, h.2.1, h.2.2]⟩

theorem bulletStrip_none_of_head {c : Char} {l : List Char}
    (hc : ¬(c = '*' ∨ c = '-' ∨ c = '+')) : bulletStrip (c :: l) = none := by
  unfold bulletStrip
  simp [hc]

theorem isBullet_shape {l : List Char} (h : isBullet l = true) :
    ∃ c w r, l = c :: w :: r ∧ (c = '*' ∨ c = '-' ∨ c = '+') ∧ jsWs w = true := by
  unfold isBullet bulletStrip at h
  match l with
  | [] => simp at h
  | c :: rest =>
    by_cases hm : c = '*' ∨ c = '-' ∨ c = '+'
    · simp only [if_pos hm] at h
      match rest with
      | [] => simp at h
      | w :: r =>
        by_cases hw : jsWs w
        · exact ⟨c, w, r, rfl, hm, hw⟩
        · simp [hw] at h
    · simp [hm] at h

theorem isOrdered_head_digit {l : List Char} (h : isOrdered l = true) :
    ∃ c r, l = c :: r ∧ c.isDigit = true := by
  unfold isOrdered orderedStrip at h
  split at h
  · simp at h
  · rename_i hne
    cases l with
    | nil => simp [List.takeWhile] at hne
    | cons c r =>
      refine ⟨c, r, rfl, ?_⟩
      by_cases hd : c.isDigit
      · exact hd
      · rw [List.takeWhile_cons] at hne
        simp [hd] at hne

theorem orderedStrip_none_of_head {c : Char} {l : List Char}
    (hc : c.isDigit = false) : orderedStrip (c :: l) = none := by
  unfold orderedStrip
  rw [List.takeWhile_cons]
  simp [hc]

theorem marker_not_ws {c : Char} (hm : c = '*' ∨ c = '-' ∨ c = '+') :
    jsWs c = false := by
  rcases hm with rfl | rfl | rfl <;> rfl

theorem mdBlocksFuel_nil (fuel : Nat) : mdBlocksFuel fuel [] = some [] := by
  cases fuel <;> rfl

theorem mdBlocks_bullet_branch (fuel : Nat) (line : List Char)
    (rest : List (List Char)) (h : isBullet line = true) :
    mdBlocksFuel (fuel + 1) (line :: rest) =
      (listItems bulletStrip ((line :: rest).takeWhile isBullet)).bind fun items =>
        (mdBlocksFuel fuel ((line :: rest).dropWhile isBullet)).map fun bs =>
          bulletListNode items :: bs := by
  obtain ⟨c, w, r, rfl, hm, hw⟩ := isBullet_shape h
  have htrim : jsTrim (c :: w :: r) ≠ [] :=
    jsTrim_ne_nil_of_mem (List.mem_cons_self _ _) (marker_not_ws hm)
  have hhead : headingMatch (c :: w :: r) = none :=
    headingMatch_none_of_head (by rcases hm with rfl | rfl | rfl <;> decide)
  have hfence : startsFence (c :: w :: r) = false :=
    startsFence_false_of_head (by rcases hm with rfl | rfl | rfl <;> decide)
  obtain ⟨t, hbs⟩ : ∃ t, bulletStrip (c :: w :: r) = some t :=
    Option.isSome_iff_exists.mp h
  simp only [mdBlocksFuel, if_neg htrim, hhead, hfence, hbs,
    Bool.false_eq_true, if_false]

theorem mdBlocks_ordered_branch (fuel : Nat) (line : List Char)
    (rest : List (List Char)) (h : isOrdered line = true) :
    mdBlocksFuel (fuel + 1) (line :: rest) =
      (listItems orderedStrip ((line :: rest).takeWhile isOrdered)).bind fun items =>
        (mdBlocksFuel fuel ((line :: rest).dropWhile isOrdered)).map fun bs =>
          orderedListNode items :: bs := by
  obtain ⟨c, r, rfl, hd⟩ := isOrdered_head_digit h
  have hdig : 48 ≤ c.toNat ∧ c.toNat ≤ 57 := by
    simp [Char.isDigit] at hd
    constructor
    · have := hd.1
      simp [Char.le_def] at this
      exact this
    · have := hd.2
      simp [Char.le_def] at this
      exact this
  have hws : jsWs c = false := by
    unfold jsWs
    rw [decide_eq_false_iff_not]
    omega
  have hne : c ≠ '#' := by
    intro heq; subst heq; simp [Char.isDigit] at hd
  have hbt : c ≠ backtick := by
    intro heq; subst heq; simp [Char.isDigit, backtick] at hd
  have hmk : ¬(c = '*' ∨ c = '-' ∨ c = '+') := by
    rintro (rfl | rfl | rfl) <;> simp [Char.isDigit] at hd
  have htrim : jsTrim (c :: r) ≠ [] :=
    jsTrim_ne_nil_of_mem (List.mem_cons_self _ _) hws
  have hhead : headingMatch (c :: r) = none := headingMatch_none_of_head hne
  have hfence : startsFence (c :: r) = false := startsFence_false_of_head hbt
  have hbul : bulletStrip (c :: r) = none := bulletStrip_none_of_head hmk
  obtain ⟨t, hos⟩ : ∃ t, orderedStrip (c :: r) = some t :=
    Option.isSome_iff_exists.mp h
  simp only [mdBlocksFuel, if_neg htrim, hhead, hfence, hbul, hos,
    Bool.false_eq_true, if_false]

theorem mdBlocks_fence_branch (fuel : Nat) (line : List Char)
    (rest : List (List Char)) (h : startsFence line = true)
    (hrest : ∀ l ∈ rest, startsFence l = false) :
    mdBlocksFuel (fuel + 1) (line :: rest) =
      some [codeBlockNode (jsTrim (line.drop 3)) (joinNl rest)] := by
  obtain ⟨r, rfl⟩ := startsFence_shape h
  have hws : jsWs backtick = false := rfl
  have htrim : jsTrim (backtick :: backtick :: backtick :: r) ≠ [] :=
    jsTrim_ne_nil_of_mem (List.mem_cons_self _ _) hws
  have hhead : headingMatch (backtick :: backtick :: backtick :: r) = none :=
    headingMatch_none_of_head (by decide)
  have htake : rest.takeWhile (fun l => !startsFence l) = rest :=
    List.takeWhile_eq_self_iff.mpr (by intro x hx; simp [hrest x hx])
  have hdrop : rest.dropWhile (fun l => !startsFence l) = [] :=
    List.dropWhile_eq_nil_iff.mpr (by intro x hx; simp [hrest x hx])
  simp only [mdBlocksFuel, if_neg htrim, hhead, h, htake, hdrop, if_true]
  rw [show List.drop 1 ([] : List (List Char)) = [] from rfl, mdBlocksFuel_nil]
  rfl

theorem mdBlocks_para_branch (fuel : Nat) (line : List Char)
    (rest : List (List Char)) (htrim : jsTrim line ≠ [])
    (hhead : headingMatch line = none) (hfence : startsFence line = false)
    (hbul : bulletStrip line = none) (hord : orderedStrip line = none) :
    mdBlocksFuel (fuel + 1) (line :: rest) =
      (parseInlineMarkdown line).bind fun inl =>
        (mdBlocksFuel fuel rest).map fun bs => paraNode inl :: bs := by
  simp only [mdBlocksFuel, if_neg htrim, hhead, hfence, hbul, hord,
    Bool.false_eq_true, if_false]

theorem mdBlocks_all_blank :
    ∀ (ls : List (List Char)) (fuel : Nat), ls.length ≤ fuel →
      (∀ l ∈ ls, jsTrim l = []) → mdBlocksFuel fuel ls = some [] := by
  intro ls
  induction ls with
  | nil => intro fuel _ _; exact mdBlocksFuel_nil fuel
  | cons l rest ih =>
    intro fuel hlen hall
    cases fuel with
    | zero => simp at hlen
    | succ f =>
      simp only [mdBlocksFuel, if_pos (hall l (List.mem_cons_self _ _))]
      exact ih f (by simpa using hlen)
        (fun x hx => hall x (List.mem_cons_of_mem _ hx))

theorem mem_splitLines :
    ∀ (s : List Char) (l : List Char), l ∈ splitLines s → ∀ c ∈ l, c ∈ s := by
  intro s
  induction s with
  | nil =>
    intro l hl c hc
    simp [splitLines] at hl
    subst hl
    cases hc
  | cons a s ih =>
    intro l hl c hc
    by_cases ha : a = '\n'
    · rw [splitLines, if_pos ha] at hl
      rcases List.mem_cons.mp hl with rfl | hl2
      · cases hc
      · exact List.mem_cons_of_mem _ (ih l hl2 c hc)
    · rw [splitLines, if_neg ha] at hl
      rcases hsp : splitLines s with _ | ⟨x, xs⟩
      · rw [hsp] at hl
        simp at hl
        subst hl
        rcases List.mem_cons.mp hc with rfl | h0
        · exact List.mem_cons_self _ _
        · cases h0
      · rw [hsp] at hl
        rcases List.mem_cons.mp hl with rfl | hl2
        · rcases List.mem_cons.mp hc with rfl | hcx
          · exact List.mem_cons_self _ _
          · exact List.mem_cons_of_mem _
              (ih x (by rw [hsp]; exact List.mem_cons_self _ _) c hcx)
        · exact List.mem_cons_of_mem _
            (ih l (by rw [hsp]; exact List.mem_cons_of_mem _ hl2) c hc)

theorem boldMatch_none_of_head {c : Char} {l : List Char} (hc : c ≠ '*') :
    boldMatch (c :: l) = none := by
  rw [boldMatch.eq_def]
  split
  · rename_i heq
    injection heq with h1 _
    exact absurd h1 hc
  · rfl

theorem parseInlineFuel_nil (fuel : Nat) : parseInlineFuel fuel [] = some [] := by
  cases fuel <;> rfl

theorem italicMatch_none_of_head {c : Char} {l : List Char} (hc : c ≠ '*') :
    italicMatch (c :: l) = none := by
  rw [italicMatch.eq_def]
  split
  · rename_i heq
    injection heq with h1 _
    exact absurd h1 hc
  · rfl

theorem codeMatch_none_of_head {c : Char} {l : List Char} (hc : c ≠ backtick) :
    codeMatch (c :: l) = none := by
  rw [codeMatch.eq_def]
  simp [hc]

theorem linkMatch_none_of_head {c : Char} {l : List Char} (hc : c ≠ '[') :
    linkMatch (c :: l) = none := by
  rw [linkMatch.eq_def]
  split
  · rename_i heq
    injection heq with h1 _
    exact absurd h1 hc
  · rfl

theorem isSpecial_false_elim {c : Char} (h : isSpecial c = false) :
    c ≠ '*' ∧ c ≠ backtick ∧ c ≠ '[' := by
  unfold isSpecial at h
  rw [decide_eq_false_iff_not] at h
  push_neg at h
  exact h

theorem inlineStep_no_special {c : Char} {cs : List Char}
    (h : ∀ x ∈ c :: cs, isSpecial x = false) :
    inlineStep (c :: cs) = (plainText (c :: cs), []) := by
  obtain ⟨h1, h2, h3⟩ := isSpecial_false_elim (h c (List.mem_cons_self _ _))
  have hdrop : (c :: cs).dropWhile (fun x => !isSpecial x) = [] :=
    List.dropWhile_eq_nil_iff.mpr (by intro x hx; simp [h x hx])
  unfold inlineStep
  rw [boldMatch_none_of_head h1, italicMatch_none_of_head h1,
    codeMatch_none_of_head h2, linkMatch_none_of_head h3, hdrop]

theorem parseInline_no_special {l : List Char} (hne : l ≠ [])
    (h : ∀ c ∈ l, isSpecial c = false) :
    parseInlineMarkdown l = some [plainText l] := by
  obtain ⟨c, cs, rfl⟩ := List.exists_cons_of_ne_nil hne
  unfold parseInlineMarkdown
  show parseInlineFuel (cs.length + 1) (c :: cs) = _
  simp only [parseInlineFuel]
  rw [inlineStep_no_special h]
  simp [parseInlineFuel_nil]

theorem mdBlocks_heading_inv :
    ∀ (fuel : Nat) (ls : List (List Char)) (bs : List AdfNode),
      mdBlocksFuel fuel ls = some bs → ∀ b ∈ bs, b.typeOf = "heading".data →
      ∃ k inl, b = headingNode k inl ∧ 1 ≤ k ∧ k ≤ 6 := by
  intro fuel
  induction fuel with
  | zero =>
    intro ls bs h b hb htype
    cases ls with
    | nil =>
      rw [mdBlocksFuel_nil] at h
      injection h with h1
      subst h1
      cases hb
    | cons l r => simp [mdBlocksFuel] at h
  | succ f ih =>
    intro ls bs h b hb htype
    cases ls with
    | nil =>
      rw [mdBlocksFuel_nil] at h
      injection h with h1
      subst h1
      cases hb
    | cons line rest =>
      simp only [mdBlocksFuel] at h
      split at h
      · exact ih rest bs h b hb htype
      · split at h
        · -- heading branch
          rename_i kt heq
          obtain ⟨k, t⟩ := kt
          rcases hpi : parseInlineMarkdown t with _ | inl <;> rw [hpi] at h
          · simp at h
          · rw [Option.some_bind] at h
            rcases hmb : mdBlocksFuel f rest with _ | bs2 <;> rw [hmb] at h
            · simp at h
            · rw [Option.map_some'] at h
              injection h with h1
              subst h1
              rcases List.mem_cons.mp hb with rfl | hb2
              · obtain ⟨_, hk1, hk6⟩ := headingMatch_bounds heq
                exact ⟨k, inl, rfl, hk1, hk6⟩
              · exact ih rest bs2 hmb b hb2 htype
        · -- not a heading
          split at h
          · -- fence branch
            rcases hmb : mdBlocksFuel f
                ((rest.dropWhile fun l => !startsFence l).drop 1) with _ | bs2 <;>
              rw [hmb] at h
            · simp at h
            · rw [Option.map_some'] at h
              injection h with h1
              subst h1
              rcases List.mem_cons.mp hb with rfl | hb2
              · simp [codeBlockNode, AdfNode.typeOf] at htype
              · exact ih _ bs2 hmb b hb2 htype
          · -- bullet / ordered / paragraph
            split at h
            · -- bullet
              rcases hit : listItems bulletStrip
                  ((line :: rest).takeWhile isBullet) with _ | items <;>
                rw [hit] at h
              · simp at h
              · rw [Option.some_bind] at h
                rcases hmb : mdBlocksFuel f
                    ((line :: rest).dropWhile isBullet) with _ | bs2 <;>
                  rw [hmb] at h
                · simp at h
                · rw [Option.map_some'] at h
                  injection h with h1
                  subst h1
                  rcases List.mem_cons.mp hb with rfl | hb2
                  · simp [bulletListNode, AdfNode.typeOf] at htype
                  · exact ih _ bs2 hmb b hb2 htype
            · split at h
              · -- ordered
                rcases hit : listItems orderedStrip
                    ((line :: rest).takeWhile isOrdered) with _ | items <;>
                  rw [hit] at h
                · simp at h
                · rw [Option.some_bind] at h
                  rcases hmb : mdBlocksFuel f
                      ((line :: rest).dropWhile isOrdered) with _ | bs2 <;>
                    rw [hmb] at h
                  · simp at h
                  · rw [Option.map_some'] at h
                    injection h with h1
                    subst h1
                    rcases List.mem_cons.mp hb with rfl | hb2
                    · simp [orderedListNode, AdfNode.typeOf] at htype
                    · exact ih _ bs2 hmb b hb2 htype
              · -- paragraph
                rcases hpi : parseInlineMarkdown line with _ | inl <;>
                  rw [hpi] at h
                · simp at h
                · rw [Option.some_bind] at h
                  rcases hmb : mdBlocksFuel f rest with _ | bs2 <;> rw [hmb] at h
                  · simp at h
                  · rw [Option.map_some'] at h
                    injection h with h1
                    subst h1
                    rcases List.mem_cons.mp hb with rfl | hb2
                    · simp [paraNode, AdfNode.typeOf] at htype
                    · exact ih rest bs2 hmb b hb2 htype

/-! ## Claim theorems -/

/-- C1: the claim says the conversion always terminates, with the inline
scanner's cursor strictly advancing on every iteration, including the
literal-fallback branch.  The code refutes this: on the one-character
input `*`, no inline pattern matches, the fallback finds the next special
character at index 0, pushes an empty text run and slices zero characters
off, so `remaining` never changes and the loop never terminates.  In the
model this zero-progress iteration surfaces as `markdownToAdf` returning
`none`, and `inlineStep` exhibits the non-advancing step itself. -/
theorem c1_markdown_divergence_on_star :
    markdownToAdf "*".data = none ∧
    inlineStep "*".data = (plainText [], "*".data) := ⟨rfl, rfl⟩

/-- C3: the claim says the inline scanner returns, for every span, a
covering sequence of text runs and never fails.  The code refutes this on
the one-character span consisting of a backtick: no pattern matches, the
fallback consumes zero characters, and the scanner loops forever instead
of returning; in the model `parseInlineMarkdown` returns `none` and
`inlineStep` exhibits the zero-progress iteration. -/
theorem c3_inline_scanner_diverges_on_backtick :
    parseInlineMarkdown [backtick] = none ∧
    inlineStep [backtick] = (plainText [], [backtick]) := ⟨rfl, rfl⟩

/-- C6: scanning `**Bold** and *italic* and (backtick)code(backtick) and
[link](url)` yields exactly 7 text runs — `Bold` with Strong, `" and "`
unmarked, `italic` with Em, `" and "` unmarked, `code` with Code,
`" and "` unmarked, and `link` with a Link mark whose href is `url`;
moreover `**Bold**` alone parses as one Strong run (Strong is tried before
Em), not as two adjacent Em spans. -/
theorem c6_inline_seven_runs :
    parseInlineMarkdown "**Bold** and *italic* and `code` and [link](url)".data =
      some [textNode "Bold".data [strongMark], plainText " and ".data,
        textNode "italic".data [emMark], plainText " and ".data,
        textNode "code".data [codeMark], plainText " and ".data,
        textNode "link".data [linkMark "url".data]] ∧
    parseInlineMarkdown "**Bold**".data =
      some [textNode "Bold".data [strongMark]] := ⟨rfl, rfl⟩

/-- C2 counterexample: the claim says a non-blank, non-heading, non-fence
line is consumed as a bullet item exactly when its first NON-SPACE
character is a marker followed by spaces and text.  Both directions fail:
`"  - x"` (first non-space character `-`, then a space, then text) is
emitted as a paragraph, not a bullet list, because the bullet regex is
anchored at the start of the line; and `"- "` (marker and space but no
text) IS consumed as a bullet item with an empty paragraph. -/
theorem c2_counterexample_anchoring :
    markdownToAdf "  - x".data =
      some (mkDoc [paraNode [plainText "  - x".data]]) ∧
    "  - x".data.dropWhile jsWs = "- x".data ∧
    markdownToAdf "- ".data =
      some (mkDoc [bulletListNode [listItemNode []]]) := ⟨rfl, rfl, rfl⟩

/-- C10 counterexample: the claim says a line with seven or more leading
hashes is emitted as a paragraph whose content is the whole literal line
as a SINGLE text run with no marks.  On `"####### *x*"` the paragraph's
content is two runs, the second carrying an Em mark, because the whole
line goes through the inline scanner. -/
theorem c10_counterexample_inline_scan :
    markdownToAdf "####### *x*".data =
      some (mkDoc [paraNode [plainText "####### ".data,
        textNode "x".data [emMark]]]) ∧
    (textNode "x".data [emMark]).marksOf = some [emMark] := ⟨rfl, rfl⟩

/-- C5: if a fence-opening line is never followed by another line starting
with three backticks, the segmenter emits a single CodeBlock whose text is
exactly the remaining lines joined with newline (blank lines preserved),
no error is raised, and segmentation ends at end of input; in particular
the input consisting of a bare fence line followed by
`code without closing` yields one CodeBlock with exactly that text. -/
theorem c5_unterminated_fence :
    (∀ (fuel : Nat) (line : List Char) (rest : List (List Char)),
      startsFence line = true → (∀ l ∈ rest, startsFence l = false) →
      mdBlocksFuel (fuel + 1) (line :: rest) =
        some [codeBlockNode (jsTrim (line.drop 3)) (joinNl rest)]) ∧
    markdownToAdf "```\ncode without closing".data =
      some (mkDoc [codeBlockNode [] "code without closing".data]) :=
  ⟨mdBlocks_fence_branch, rfl⟩

/-- Witness for C5: instantiating the unterminated-fence theorem at the
concrete two-line input. -/
theorem c5_unterminated_fence_witness :
    mdBlocksFuel 1 ["```".data, "code without closing".data] =
      some [codeBlockNode (jsTrim ("```".data.drop 3))
        (joinNl ["code without closing".data])] :=
  c5_unterminated_fence.1 0 "```".data ["code without closing".data]
    (by decide)
    (by
      intro l hl
      rcases List.mem_cons.mp hl with rfl | h0
      · decide
      · cases h0)

/-- C4: every document either conversion path returns has type `doc`,
version 1 and non-empty content — for the markdown path over every
document it returns, and for the plain-text path over every input
whatsoever; and any whitespace-only input (including the empty string)
yields exactly one empty paragraph on both paths. -/
theorem c4_document_invariant :
    (∀ (s : List Char) (d : AdfDocument), markdownToAdf s = some d →
      d.type = "doc".data ∧ d.version = 1 ∧ d.content ≠ []) ∧
    (∀ s : List Char, (textToAdf s).type = "doc".data ∧
      (textToAdf s).version = 1 ∧ (textToAdf s).content ≠ []) ∧
    (∀ s : List Char, (∀ c ∈ s, jsWs c = true) →
      markdownToAdf s = some (mkDoc [emptyPara]) ∧
      textToAdf s = mkDoc [emptyPara]) := by
  refine ⟨?_, ?_, ?_⟩
  case refine_2 =>
    intro s
    simp only [textToAdf]
    split
    · exact ⟨rfl, rfl, List.cons_ne_nil _ _⟩
    · rename_i hne
      refine ⟨rfl, rfl, ?_⟩
      intro h
      exact hne (List.map_eq_nil_iff.mp h)
  · intro s d h
    simp only [markdownToAdf] at h
    rcases hmb : mdBlocksFuel (splitLines s).length (splitLines s) with _ | bs <;>
      rw [hmb] at h
    · simp at h
    · rw [Option.map_some'] at h
      injection h with h1
      subst h1
      refine ⟨rfl, rfl, ?_⟩
      dsimp only
      split
      · simp
      · rename_i hlen
        intro hnil
        rw [hnil] at hlen
        exact hlen rfl
  · intro s hws
    have hlines : ∀ l ∈ splitLines s, jsTrim l = [] := fun l hl =>
      jsTrim_nil_of_all_ws (fun c hc => hws c (mem_splitLines s l hl c hc))
    constructor
    · simp only [markdownToAdf]
      rw [mdBlocks_all_blank (splitLines s) (splitLines s).length le_rfl hlines]
      rfl
    · simp only [textToAdf]
      have hfil : (splitLines s).filter (fun l => decide (jsTrim l ≠ [])) = [] :=
        List.filter_eq_nil_iff.mpr (by intro l hl; simp [hlines l hl])
      rw [hfil]
      rfl

/-- Witness for C4: the empty string's markdown document satisfies the
invariant, the plain-text document of `"hello"` satisfies it, and a
space-only input collapses to one empty paragraph on both paths. -/
theorem c4_document_invariant_witness :
    ((mkDoc [emptyPara]).type = "doc".data ∧ (mkDoc [emptyPara]).version = 1 ∧
      (mkDoc [emptyPara]).content ≠ []) ∧
    ((textToAdf "hello".data).type = "doc".data ∧
      (textToAdf "hello".data).version = 1 ∧
      (textToAdf "hello".data).content ≠ []) ∧
    (markdownToAdf " ".data = some (mkDoc [emptyPara]) ∧
      textToAdf " ".data = mkDoc [emptyPara]) :=
  ⟨c4_document_invariant.1 [] (mkDoc [emptyPara]) rfl,
   c4_document_invariant.2.1 "hello".data,
   c4_document_invariant.2.2 " ".data (by decide)⟩

/-- C7: a heading match always reports level equal to the number of leading
hash characters of its line, and that level lies in [1,6]; every heading
block in any document the markdown path returns has its level in [1,6];
`# Heading 1` yields level 1 and `###### H` yields level 6. -/
theorem c7_heading_levels :
    (∀ (l : List Char) (k : Nat) (t : List Char),
      headingMatch l = some (k, t) →
      k = (l.takeWhile fun c => decide (c = '#')).length ∧ 1 ≤ k ∧ k ≤ 6) ∧
    (∀ (s : List Char) (d : AdfDocument), markdownToAdf s = some d →
      ∀ b ∈ d.content, b.typeOf = "heading".data →
        ∃ k inl, b = headingNode k inl ∧ 1 ≤ k ∧ k ≤ 6) ∧
    markdownToAdf "# Heading 1".data =
      some (mkDoc [headingNode 1 [plainText "Heading 1".data]]) ∧
    markdownToAdf "###### H".data =
      some (mkDoc [headingNode 6 [plainText "H".data]]) := by
  refine ⟨fun l k t h => headingMatch_bounds h, ?_, rfl, rfl⟩
  intro s d h b hb htype
  simp only [markdownToAdf] at h
  rcases hmb : mdBlocksFuel (splitLines s).length (splitLines s) with _ | bs <;>
    rw [hmb] at h
  · simp at h
  · rw [Option.map_some'] at h
    injection h with h1
    subst h1
    dsimp only at hb
    split at hb
    · simp at hb
      subst hb
      simp [emptyPara, paraNode, AdfNode.typeOf] at htype
    · exact mdBlocks_heading_inv _ _ bs hmb b hb htype

/-- Witness for C7: the heading-match bound instantiated on `# H`. -/
theorem c7_heading_levels_witness :
    1 = ("# H".data.takeWhile fun c => decide (c = '#')).length ∧
      1 ≤ 1 ∧ 1 ≤ 6 :=
  c7_heading_levels.1 "# H".data 1 "H".data rfl

/-- C9: the plain-text path splits on newline, discards exactly the lines
whose trimmed form is empty, and emits one paragraph per surviving line in
source order, each containing a single unmarked text run holding the
original untrimmed line; if no line survives, the content is exactly one
empty paragraph. -/
theorem c9_plain_text_path :
    ∀ (s : List Char) (ps : List (List Char)),
      ps = (splitLines s).filter (fun l => decide (jsTrim l ≠ [])) →
      ((ps = [] → textToAdf s = mkDoc [emptyPara]) ∧
       (ps ≠ [] → textToAdf s = mkDoc (ps.map fun p => paraNode [plainText p]))) := by
  intro s ps hps
  subst hps
  constructor
  · intro hnil
    simp only [textToAdf]
    rw [hnil]
    rfl
  · intro hne
    simp only [textToAdf]
    rw [if_neg hne]

/-- Witness for C9: `"a\n\n b "` keeps the untrimmed surviving lines `"a"`
and `" b "`, one paragraph each. -/
theorem c9_plain_text_path_witness :
    (["a".data, " b ".data] = [] → textToAdf "a\n\n b ".data = mkDoc [emptyPara]) ∧
    (["a".data, " b ".data] ≠ [] →
      textToAdf "a\n\n b ".data =
        mkDoc (["a".data, " b ".data].map fun p => paraNode [plainText p])) :=
  c9_plain_text_path "a\n\n b ".data ["a".data, " b ".data] (by decide)

/-- C10 (amended): a line with seven or more leading hash characters never
matches the heading pattern (the level is not capped at 6) and falls
through the whole classification cascade to a paragraph whose content is
the inline scan of the whole literal line; when the line contains no
inline-special character that scan is a single unmarked text run, as on
`"####### H"`. -/
theorem c10_seven_hash_paragraph :
    (∀ l : List Char, 7 ≤ (l.takeWhile fun c => decide (c = '#')).length →
      headingMatch l = none) ∧
    (∀ (fuel : Nat) (line : List Char) (rest : List (List Char)),
      7 ≤ (line.takeWhile fun c => decide (c = '#')).length →
      mdBlocksFuel (fuel + 1) (line :: rest) =
        (parseInlineMarkdown line).bind fun inl =>
          (mdBlocksFuel fuel rest).map fun bs => paraNode inl :: bs) ∧
    (∀ l : List Char, l ≠ [] → (∀ c ∈ l, isSpecial c = false) →
      parseInlineMarkdown l = some [plainText l]) ∧
    markdownToAdf "####### H".data =
      some (mkDoc [paraNode [plainText "####### H".data]]) := by
  refine ⟨fun l h => headingMatch_none_of_seven h, ?_,
    fun l hne h => parseInline_no_special hne h, rfl⟩
  intro fuel line rest hsev
  obtain ⟨r, rfl⟩ : ∃ r, line = '#' :: r := by
    cases line with
    | nil => simp [List.takeWhile] at hsev
    | cons c r =>
      rw [List.takeWhile_cons] at hsev
      by_cases hc : c = '#'
      · exact ⟨r, by rw [hc]⟩
      · simp [hc] at hsev
  exact mdBlocks_para_branch fuel ('#' :: r) rest
    (jsTrim_ne_nil_of_mem (List.mem_cons_self _ _) rfl)
    (headingMatch_none_of_seven hsev)
    (startsFence_false_of_head (by decide))
    (bulletStrip_none_of_head (by decide))
    (orderedStrip_none_of_head (by decide))

/-- Witness for C10: the paragraph-branch equation instantiated on the
single line `"####### H"`, and the no-special-character single-run fact on
`"abc"`. -/
theorem c10_seven_hash_paragraph_witness :
    (mdBlocksFuel 1 ["####### H".data] =
      (parseInlineMarkdown "####### H".data).bind fun inl =>
        (mdBlocksFuel 0 []).map fun bs => paraNode inl :: bs) ∧
    parseInlineMarkdown "abc".data = some [plainText "abc".data] :=
  ⟨c10_seven_hash_paragraph.2.1 0 "####### H".data [] (by decide),
   c10_seven_hash_paragraph.2.2.1 "abc".data (by decide) (by decide)⟩

/-- C2 (amended): a non-blank line that is not a heading or code fence is
consumed as a bullet-list item exactly when its FIRST character is one of
`*`, `-`, `+` followed by at least one whitespace character (the remaining
text may be empty); every maximal run of consecutive such lines — markers
allowed to differ within the run — is emitted as exactly one BulletList
whose items, in line order, are list items each containing one paragraph
of the inline-scanned text left after stripping the marker-and-whitespace
prefix; a mixed-marker run like `"* a\n- b\n+ c"` yields one BulletList
with three items. -/
theorem c2_bullet_grouping :
    (∀ l : List Char, isBullet l = true ↔
      ∃ c w r, l = c :: w :: r ∧ (c = '*' ∨ c = '-' ∨ c = '+') ∧
        jsWs w = true) ∧
    (∀ (fuel : Nat) (line : List Char) (rest : List (List Char)),
      isBullet line = true →
      mdBlocksFuel (fuel + 1) (line :: rest) =
        (listItems bulletStrip ((line :: rest).takeWhile isBullet)).bind
          fun items =>
            (mdBlocksFuel fuel ((line :: rest).dropWhile isBullet)).map
              fun bs => bulletListNode items :: bs) ∧
    (∀ (fuel : Nat) (line : List Char) (rest : List (List Char))
       (bs : List AdfNode),
      jsTrim line ≠ [] → headingMatch line = none → startsFence line = false →
      isBullet line = false →
      mdBlocksFuel (fuel + 1) (line :: rest) = some bs →
      ∃ b bs2, bs = b :: bs2 ∧
        (b.typeOf = "orderedList".data ∨ b.typeOf = "paragraph".data)) ∧
    markdownToAdf "* a\n- b\n+ c".data =
      some (mkDoc [bulletListNode [listItemNode [plainText "a".data],
        listItemNode [plainText "b".data],
        listItemNode [plainText "c".data]]]) := by
  refine ⟨?_, mdBlocks_bullet_branch, ?_, rfl⟩
  · intro l
    constructor
    · exact isBullet_shape
    · rintro ⟨c, w, r, rfl, hm, hw⟩
      simp [isBullet, bulletStrip, hm, hw]
  · intro fuel line rest bs htrim hhead hfence hbul h
    have hbn : bulletStrip line = none :=
      Option.not_isSome_iff_eq_none.mp (by simp [isBullet] at hbul; simp [hbul])
    simp only [mdBlocksFuel, if_neg htrim, hhead, hfence, hbn,
      Bool.false_eq_true, if_false] at h
    split at h
    · rcases hit : listItems orderedStrip
          ((line :: rest).takeWhile isOrdered) with _ | items <;> rw [hit] at h
      · simp at h
      · rw [Option.some_bind] at h
        rcases hmb : mdBlocksFuel fuel
            ((line :: rest).dropWhile isOrdered) with _ | bs2 <;> rw [hmb] at h
        · simp at h
        · rw [Option.map_some'] at h
          injection h with h1
          subst h1
          exact ⟨_, _, rfl, Or.inl rfl⟩
    · rcases hpi : parseInlineMarkdown line with _ | inl <;> rw [hpi] at h
      · simp at h
      · rw [Option.some_bind] at h
        rcases hmb : mdBlocksFuel fuel rest with _ | bs2 <;> rw [hmb] at h
        · simp at h
        · rw [Option.map_some'] at h
          injection h with h1
          subst h1
          exact ⟨_, _, rfl, Or.inr rfl⟩

/-- Witness for C2: the bullet-branch grouping equation instantiated on the
single line `"- a"`. -/
theorem c2_bullet_grouping_witness :
    mdBlocksFuel 1 ["- a".data] =
      (listItems bulletStrip (["- a".data].takeWhile isBullet)).bind
        fun items =>
          (mdBlocksFuel 0 (["- a".data].dropWhile isBullet)).map
            fun bs => bulletListNode items :: bs :=
  c2_bullet_grouping.2.1 0 "- a".data [] (by decide)

/-- C8: a line of the claimed shape — one or more digits, a period, one or
more spaces, then text — matches the ordered-item pattern regardless of
the numeric value (the test never inspects the digits' value), and every
run of consecutive ordered-pattern lines starting at the cursor is emitted
as exactly one OrderedList whose items, in line order, carry the
inline-scanned text after the stripped digit prefix; in particular
`"1. First\n5. Second\n10. Third"` yields one OrderedList with items
`First`, `Second`, `Third`. -/
theorem c8_ordered_grouping :
    (∀ (ds w t : List Char), ds ≠ [] → (∀ c ∈ ds, c.isDigit = true) →
      w ≠ [] → (∀ c ∈ w, jsWs c = true) →
      isOrdered (ds ++ '.' :: (w ++ t)) = true) ∧
    (∀ (fuel : Nat) (line : List Char) (rest : List (List Char)),
      isOrdered line = true →
      mdBlocksFuel (fuel + 1) (line :: rest) =
        (listItems orderedStrip ((line :: rest).takeWhile isOrdered)).bind
          fun items =>
            (mdBlocksFuel fuel ((line :: rest).dropWhile isOrdered)).map
              fun bs => orderedListNode items :: bs) ∧
    markdownToAdf "1. First\n5. Second\n10. Third".data =
      some (mkDoc [orderedListNode [listItemNode [plainText "First".data],
        listItemNode [plainText "Second".data],
        listItemNode [plainText "Third".data]]]) := by
  refine ⟨?_, mdBlocks_ordered_branch, rfl⟩
  intro ds w t hds hdig hw hws
  have htake : (ds ++ '.' :: (w ++ t)).takeWhile Char.isDigit = ds := by
    rw [List.takeWhile_append, List.takeWhile_eq_self_iff.mpr hdig]
    simp [List.takeWhile_cons]
  have hdrop : (ds ++ '.' :: (w ++ t)).dropWhile Char.isDigit =
      '.' :: (w ++ t) := by
    rw [List.dropWhile_append, List.dropWhile_eq_nil_iff.mpr hdig]
    simp [List.dropWhile_cons]
  unfold isOrdered orderedStrip
  rw [htake, hdrop, if_neg hds]
  obtain ⟨w0, w2, rfl⟩ := List.exists_cons_of_ne_nil hw
  simp [hws w0 (List.mem_cons_self _ _)]

/-- Witness for C8: the claimed ordered-item shape instantiated on the
decomposition of `"1. x"`. -/
theorem c8_ordered_grouping_witness :
    isOrdered ("1".data ++ '.' :: (" ".data ++ "x".data)) = true :=
  c8_ordered_grouping.1 "1".data " ".data "x".data (by decide) (by decide)
    (by decide) (by decide)
